import Mathlib

set_option maxHeartbeats 1000000

/-
Verification of the caching reverse proxy in src/server.js.

The request handler is embedded as a pure function: the cache is explicit
state (an association list from string keys to value/expiry pairs, where a
fresh `set` shadows any older entry, matching node-cache's overwrite
semantics at the level of `get`), time is an explicit natural number, and
the single upstream fetch performed by a request is represented by a
`FetchEvent` describing what the network did (a response with a given
status / content type / body, a timeout firing, or a transport failure).
JSON documents are modelled with integer numbers; JSON.parse is abstracted
as the `bodyJson` field of an upstream response (`none` = parse failure).
Query parameter keys and values are modelled as byte strings (the UTF-8
bytes of the JavaScript strings held in req.query), which is the level at
which URLSearchParams' application/x-www-form-urlencoded serializer works.
-/

/-- JSON-compatible values (numbers modelled as integers). -/
inductive Json where
  | null
  | bool (b : Bool)
  | num (n : Int)
  | str (s : String)
  | arr (elems : List Json)
  | obj (fields : List (String × Json))


/-- JavaScript truthiness of a JSON value, as tested by `if (cached)` and
`if (stale)` in server.js lines 54 and 81. -/
def jsTruthy : Json → Bool
  | .null => false
  | .bool b => b
  | .num n => n != 0
  | .str s => s != ""
  | .arr _ => true
  | .obj _ => true

/-- Line 72 of server.js: `typeof data === 'string' ? \x7b raw: data \x7d : data`. -/
def jsNormalize : Json → Json
  | .str s => .obj [("raw", .str s)]
  | v => v

/-- JavaScript object spread `\x7b ...v \x7d` applied to a JSON value: objects
contribute their fields, arrays and strings contribute index-keyed fields,
and primitives contribute nothing. -/
def jsSpread : Json → List (String × Json)
  | .obj fs => fs
  | .arr xs => xs.enum.map (fun p => (toString p.1, p.2))
  | .str s => s.data.enum.map (fun p => (toString p.1, Json.str (String.mk [p.2])))
  | _ => []

/-- Adding a key to a JavaScript object literal after a spread: an existing
key keeps its position but gets the new value, a new key is appended. -/
def objUpsert : List (String × Json) → String → Json → List (String × Json)
  | [], k, v => [(k, v)]
  | (k₁, v₁) :: rest, k, v =>
    if k₁ = k then (k, v) :: rest else (k₁, v₁) :: objUpsert rest k v

/-- The warning object added at line 85 of server.js. -/
def warnMeta : Json := .obj [("warning", .str "Upstream error, served stale cache")]

/-- Line 85 of server.js: `\x7b ...stale, meta: \x7b warning: ... \x7d \x7d`. -/
def staleBody (v : Json) : Json := .obj (objUpsert (jsSpread v) "meta" warnMeta)

/-- Whether a JSON value is an object. -/
def isObj : Json → Bool
  | .obj _ => true
  | _ => false

/-- Bytes kept verbatim by the application/x-www-form-urlencoded serializer
used by URLSearchParams.toString(): ASCII alphanumerics and * - . _ . -/
def isSafeByte (b : Nat) : Bool :=
  (48 ≤ b && b ≤ 57) || (65 ≤ b && b ≤ 90) || (97 ≤ b && b ≤ 122) ||
  b == 42 || b == 45 || b == 46 || b == 95

/-- Uppercase hexadecimal digit. -/
def hexDigit (n : Nat) : Char :=
  if n < 10 then Char.ofNat (48 + n) else Char.ofNat (55 + n)

/-- Percent-encoding of one byte by URLSearchParams.toString(): safe bytes
kept, space becomes +, everything else becomes %XX. -/
def encodeByte (b : Nat) : List Char :=
  if isSafeByte b then [Char.ofNat b]
  else if b == 32 then ['+']
  else ['%', hexDigit (b / 16), hexDigit (b % 16)]

/-- Percent-encoding of a byte string. -/
def encodeBytes : List Nat → List Char
  | [] => []
  | b :: bs => encodeByte b ++ encodeBytes bs

/-- Query parameters as held in req.query: an ordered list of key/value
pairs, keys and values as byte strings. -/
abbrev Query := List (List Nat × List Nat)

/-- Serialization of one key/value pair: `key=value` with both sides
percent-encoded. -/
def pairChars (p : List Nat × List Nat) : List Char :=
  encodeBytes p.1 ++ '=' :: encodeBytes p.2

/-- Tail of the serialized query: each further pair prefixed with `&`. -/
def queryRest : Query → List Char
  | [] => []
  | p :: ps => '&' :: (pairChars p ++ queryRest ps)

/-- Characters of `new URLSearchParams(req.query).toString()`. -/
def queryChars : Query → List Char
  | [] => []
  | p :: ps => pairChars p ++ queryRest ps

/-- The string `qs` of server.js line 48. -/
def serializeQuery (q : Query) : String := String.mk (queryChars q)

/-- A byte string: every element is an actual byte. -/
def ValidBytes (bs : List Nat) : Prop := ∀ b ∈ bs, b < 256

/-- Every key and value of the query is a byte string. -/
def ValidQuery (q : Query) : Prop := ∀ p ∈ q, ValidBytes p.1 ∧ ValidBytes p.2

/-- The whitelist built at lines 28-36 of server.js. -/
def allowedResources : List String :=
  ["findCamerasAll", "findCamerasWithinBounds", "findCamerasByRegion", "findCamerasByJourney",
   "findRoadEventsAll", "findRoadEventsWithinBounds", "findRoadEventsByRegion", "findRoadEventsByJourney",
   "findVmsSignsAll", "findVmsSignsWithinBounds", "findVmsSignsByRegion", "findVmsSignsByJourney",
   "findTimSignsAll", "findTimSignsWithinBounds", "findTimSignsByRegion", "findTimSignsByJourney",
   "findRegionsAll", "findRegionsWithinBounds",
   "findWaysAll", "findWaysWithinBounds",
   "findJourneysAll", "findJourneysWithinBounds"]

/-- isSafeResource of server.js lines 26-38. -/
def isSafeResource (name : String) : Bool := allowedResources.contains name

/-- The cache key of server.js line 52: `traffic:resource:qs`. -/
def cacheKey (resource : String) (q : Query) : String :=
  "traffic:" ++ resource ++ ":" ++ serializeQuery q

/-- The cache, keyed by string, holding a value and an absolute expiry
time; a fresh entry is consed on and shadows older ones. -/
abbrev CacheState := List (String × (Json × Nat))

/-- cache.get: the value, if present and not yet expired. -/
def cacheGet (st : CacheState) (now : Nat) (k : String) : Option Json :=
  match st.lookup k with
  | some (v, exp) => if now < exp then some v else none
  | none => none

/-- cache.set with an explicit TTL in the same time unit as `now`. -/
def cacheSet (st : CacheState) (now : Nat) (k : String) (v : Json) (ttl : Nat) : CacheState :=
  (k, (v, now + ttl)) :: st

/-- Truthiness of an optional cache read (undefined is falsy). -/
def optTruthy : Option Json → Bool
  | some v => jsTruthy v
  | none => false

/-- What the upstream sent back: status, declared content type, body text,
and the result of JSON.parse on that text (none = parse failure). -/
structure UpstreamResponse where
  status : Nat
  contentType : String
  bodyText : String
  bodyJson : Option Json


/-- What the network did for the single fetch of a request: a response
arrived, the timeout fired and aborted the call, or the transport failed. -/
inductive FetchEvent where
  | response (r : UpstreamResponse)
  | timeout
  | transportFail


/-- The settled state of the fetch job of server.js lines 59-74: a resolved
`\x7b error: false, status, data \x7d`, a resolved `\x7b error: true, status, data \x7d`,
or a rejection (isAbort = the thrown error is an AbortError). -/
inductive JobOutcome where
  | ok (status : Nat) (data : Json)
  | err (status : Nat) (data : String)
  | thrown (isAbort : Bool)


/-- resp.ok: status in the 2xx range. -/
def respOk (status : Nat) : Bool := 200 ≤ status && status < 300

/-- Whether the first list starts the second one. -/
def startsWithL : List Char → List Char → Bool
  | [], _ => true
  | _ :: _, [] => false
  | a :: as, b :: bs => a == b && startsWithL as bs

/-- Whether the pattern occurs contiguously in the list (String.includes). -/
def hasSubstr (pat : List Char) : List Char → Bool
  | [] => pat.isEmpty
  | l@(_ :: rest) => startsWithL pat l || hasSubstr pat rest

/-- Line 68 of server.js: `contentType.includes('application/json')`. -/
def jsonCT (ct : String) : Bool := hasSubstr "application/json".data ct.data

/-- The fetch job of server.js lines 59-74, as a function of the network
event, returning the job outcome together with whether `cancel()` (the
clearTimeout of line 23) was invoked. The code calls cancel() only at
line 61, after `await fetch` resolves; when fetch rejects (timeout abort
or transport failure) it is never reached. -/
def runJob : FetchEvent → JobOutcome × Bool
  | .timeout => (.thrown true, false)
  | .transportFail => (.thrown false, false)
  | .response r =>
    if respOk r.status then
      if jsonCT r.contentType then
        match r.bodyJson with
        | some v => (.ok r.status (jsNormalize v), true)
        | none => (.thrown false, true)
      else (.ok r.status (jsNormalize (.str r.bodyText)), true)
    else (.err r.status r.bodyText, true)

/-- Everything observable about one handled request: HTTP status, the
X-Cache header if set, the JSON body, the cache state afterwards, how many
outbound upstream calls were made, and whether the timeout timer was
cleared. -/
structure HandlerResult where
  status : Nat
  xCache : Option String
  body : Json
  cache : CacheState
  upstreamCalls : Nat
  cancelCalled : Bool


/-- The cache-miss path of the handler, server.js lines 58-97: run the
fetch job, then either write both cache tiers and respond 200 MISS, or
fall back to the stale tier / an error body, or (job rejected) respond 504
from the catch block at lines 94-97. -/
def handleMiss (ttl : Nat) (st : CacheState) (now : Nat) (key : String) (ev : FetchEvent) : HandlerResult :=
  let oc := runJob ev
  match oc.1 with
  | .ok _ v =>
    let st₁ := cacheSet st now key v ttl
    let st₂ := cacheSet st₁ now (key ++ ":stale") v (ttl * 10)
    ⟨200, some "MISS", v, st₂, 1, oc.2⟩
  | .err s txt =>
    let fallback : HandlerResult :=
      ⟨if s = 0 then 502 else s, none,
       .obj [("error", .str "Upstream error"), ("detail", .str txt)], st, 1, oc.2⟩
    match cacheGet st now (key ++ ":stale") with
    | some sv => if jsTruthy sv then ⟨200, some "STALE", staleBody sv, st, 1, oc.2⟩ else fallback
    | none => fallback
  | .thrown isAbort =>
    ⟨504, none, .obj [("error", .str (if isAbort then "Upstream timeout" else "Proxy error"))], st, 1, oc.2⟩

/-- The request handler of server.js lines 40-98 for `GET
/api/traffic/:resource`: validate the resource, derive the cache key,
serve a truthy fresh-cache hit, otherwise take the miss path. `ttl` is
CACHETTL. -/
def handle (ttl : Nat) (st : CacheState) (now : Nat) (resource : String) (q : Query) (ev : FetchEvent) : HandlerResult :=
  if isSafeResource resource then
    let key := cacheKey resource q
    match cacheGet st now key with
    | some v => if jsTruthy v then ⟨200, some "HIT", v, st, 0, false⟩ else handleMiss ttl st now key ev
    | none => handleMiss ttl st now key ev
  else ⟨400, none, .obj [("error", .str "Unsupported resource")], st, 0, false⟩

namespace Limiter

/-- Modelled from the spec: the Concurrency Limiter (the p-limit
dependency, whose code is not part of this repository) per section 4.3 of
the spec: at most `cap` tasks run concurrently, excess tasks queue in FIFO
order and are admitted as running slots free up. A state holds the FIFO
queue and the running set as lists of remaining-work fuels, plus a count
of completed tasks. -/
structure LimState where
  queued : List Nat
  running : List Nat
  done : Nat


/-- One scheduler round: running tasks with no fuel left complete, the
others consume one unit of fuel, then queued tasks are admitted in FIFO
order while capacity remains. -/
def tickStep (cap : Nat) (s : LimState) : LimState :=
  let finished := (s.running.filter (fun f => f == 0)).length
  let stillRunning := (s.running.filter (fun f => f != 0)).map (fun f => f - 1)
  let space := cap - stillRunning.length
  { queued := s.queued.drop space
    running := stillRunning ++ s.queued.take space
    done := s.done + finished }

/-- Iterate the scheduler for a number of rounds. -/
def runN (cap : Nat) : Nat → LimState → LimState
  | 0, s => s
  | k + 1, s => runN cap k (tickStep cap s)

/-- Termination potential of a limiter state. -/
def potential (s : LimState) : Nat :=
  2 * (s.queued.sum + s.queued.length) + (s.running.sum + s.running.length)

end Limiter


/-! Helper lemmas about the percent-encoding: `encodeByte` is a prefix
code whose output avoids the separator characters, hence the query
serialization is injective on byte-valid queries. -/

theorem charOfNat_toNat (b : Nat) (h : b < 256) : (Char.ofNat b).toNat = b := by
  have hv : Nat.isValidChar b := Or.inl (by omega)
  simp [Char.ofNat, hv, Char.ofNatAux, Char.toNat, UInt32.toNat, BitVec.toNat_ofNatLt]

theorem charOfNat_eq (b : Nat) (hb : b < 256) (c : Char) (h : Char.ofNat b = c) : b = c.toNat := by
  have h₁ := congrArg Char.toNat h
  rwa [charOfNat_toNat b hb] at h₁

theorem hexDigit_inj : ∀ m < 16, ∀ n < 16, hexDigit m = hexDigit n → m = n := by decide

theorem hexDigit_not_special : ∀ n < 16, hexDigit n ≠ '&' ∧ hexDigit n ≠ '=' ∧ hexDigit n ≠ ':' := by
  decide

theorem encodeByte_ne_nil (b : Nat) : encodeByte b ≠ [] := by
  unfold encodeByte
  by_cases hs : isSafeByte b = true
  · simp [hs]
  · by_cases h32 : (b == 32) = true <;> simp [hs, h32]

theorem safe_byte_head (b : Nat) (hb : b < 256) (hs : isSafeByte b = true) :
    Char.ofNat b ≠ '%' ∧ Char.ofNat b ≠ '+' ∧ Char.ofNat b ≠ '&' ∧
    Char.ofNat b ≠ '=' ∧ Char.ofNat b ≠ ':' := by
  refine ⟨?_, ?_, ?_, ?_, ?_⟩ <;> intro h <;>
    (rw [charOfNat_eq b hb _ h] at hs; exact absurd hs (by decide))

theorem encodeByte_prefix_code (b₁ b₂ : Nat) (h₁ : b₁ < 256) (h₂ : b₂ < 256)
    (t₁ t₂ : List Char) (h : encodeByte b₁ ++ t₁ = encodeByte b₂ ++ t₂) :
    b₁ = b₂ ∧ t₁ = t₂ := by
  unfold encodeByte at h
  by_cases hs₁ : isSafeByte b₁ = true <;> by_cases hs₂ : isSafeByte b₂ = true
  · simp [hs₁, hs₂] at h
    obtain ⟨hc, ht⟩ := h
    have := charOfNat_eq b₁ h₁ _ hc
    rw [charOfNat_toNat b₂ h₂] at this
    exact ⟨this, ht⟩
  · by_cases h32 : (b₂ == 32) = true
    · simp [hs₁, hs₂, h32] at h
      have := charOfNat_eq b₁ h₁ _ h.1
      rw [this] at hs₁
      exact absurd hs₁ (by decide)
    · simp [hs₁, hs₂, h32] at h
      have := charOfNat_eq b₁ h₁ _ h.1
      rw [this] at hs₁
      exact absurd hs₁ (by decide)
  · by_cases h32 : (b₁ == 32) = true
    · simp [hs₁, hs₂, h32] at h
      have := charOfNat_eq b₂ h₂ _ h.1.symm
      rw [this] at hs₂
      exact absurd hs₂ (by decide)
    · simp [hs₁, hs₂, h32] at h
      have := charOfNat_eq b₂ h₂ _ h.1.symm
      rw [this] at hs₂
      exact absurd hs₂ (by decide)
  · by_cases h32a : (b₁ == 32) = true <;> by_cases h32b : (b₂ == 32) = true
    · simp at h32a h32b
      exact ⟨by omega, by simpa [hs₁, hs₂, h32a, h32b] using h⟩
    · simp [hs₁, hs₂, h32a, h32b] at h
    · simp [hs₁, hs₂, h32a, h32b] at h
    · simp [hs₁, hs₂, h32a, h32b] at h
      obtain ⟨hd, hm, ht⟩ := h
      have hdiv := hexDigit_inj _ (by omega : b₁ / 16 < 16) _ (by omega : b₂ / 16 < 16) hd
      have hmod := hexDigit_inj _ (by omega : b₁ % 16 < 16) _ (by omega : b₂ % 16 < 16) hm
      exact ⟨by omega, ht⟩

theorem encodeBytes_inj {bs₁ bs₂ : List Nat} (h₁ : ValidBytes bs₁) (h₂ : ValidBytes bs₂)
    (h : encodeBytes bs₁ = encodeBytes bs₂) : bs₁ = bs₂ := by
  induction bs₁ generalizing bs₂ with
  | nil =>
    cases bs₂ with
    | nil => rfl
    | cons b bs =>
      rw [encodeBytes, encodeBytes] at h
      exact absurd (List.append_eq_nil.mp h.symm).1 (encodeByte_ne_nil b)
  | cons b bs ih =>
    cases bs₂ with
    | nil =>
      rw [encodeBytes, encodeBytes] at h
      exact absurd (List.append_eq_nil.mp h).1 (encodeByte_ne_nil b)
    | cons b₂ bs₂ =>
      rw [encodeBytes, encodeBytes] at h
      have hb : b < 256 := h₁ b (by simp)
      have hb₂ : b₂ < 256 := h₂ b₂ (by simp)
      obtain ⟨hbEq, htEq⟩ := encodeByte_prefix_code b b₂ hb hb₂ _ _ h
      have := ih (fun x hx => h₁ x (by simp [hx])) (fun x hx => h₂ x (by simp [hx])) htEq
      exact by rw [hbEq, this]

theorem encodeByte_chars (b : Nat) (hb : b < 256) :
    ∀ c ∈ encodeByte b, c ≠ '&' ∧ c ≠ '=' ∧ c ≠ ':' := by
  intro c hc
  unfold encodeByte at hc
  by_cases hs : isSafeByte b = true
  · simp [hs] at hc
    subst hc
    have := safe_byte_head b hb hs
    exact ⟨this.2.2.1, this.2.2.2.1, this.2.2.2.2⟩
  · by_cases h32 : (b == 32) = true
    · simp [hs, h32] at hc
      subst hc
      decide
    · simp [hs, h32] at hc
      rcases hc with hc | hc | hc <;> subst hc
      · decide
      · exact hexDigit_not_special _ (by omega)
      · exact hexDigit_not_special _ (by omega)

theorem encodeBytes_chars (bs : List Nat) (h : ValidBytes bs) :
    ∀ c ∈ encodeBytes bs, c ≠ '&' ∧ c ≠ '=' ∧ c ≠ ':' := by
  induction bs with
  | nil => simp [encodeBytes]
  | cons b rest ih =>
    intro c hc
    rw [encodeBytes] at hc
    rcases List.mem_append.mp hc with hm | hm
    · exact encodeByte_chars b (h b (by simp)) c hm
    · exact ih (fun x hx => h x (by simp [hx])) c hm

theorem append_cons_inj {α : Type} (s : α) :
    ∀ (a c : List α), s ∉ a → s ∉ c → ∀ (b d : List α),
      a ++ s :: b = c ++ s :: d → a = c ∧ b = d := by
  intro a
  induction a with
  | nil =>
    intro c ha hc b d h
    cases c with
    | nil => simpa using h
    | cons y c =>
      simp at h
      exact absurd h.1.symm (by simp at hc; exact fun he => hc.1 he.symm)
  | cons x a ih =>
    intro c ha hc b d h
    cases c with
    | nil =>
      simp at h
      exact absurd h.1 (by simp at ha; exact fun he => ha.1 he.symm)
    | cons y c =>
      simp at h
      obtain ⟨hxy, hrest⟩ := h
      have hna : s ∉ a := fun hm => ha (by simp [hm])
      have hnc : s ∉ c := fun hm => hc (by simp [hm])
      obtain ⟨he₁, he₂⟩ := ih c hna hnc b d hrest
      exact ⟨by rw [hxy, he₁], he₂⟩

theorem pairChars_sep_free (p : List Nat × List Nat) (h : ValidBytes p.1 ∧ ValidBytes p.2) :
    '&' ∉ pairChars p ∧ ':' ∉ pairChars p := by
  constructor <;> intro hm <;>
  · rw [pairChars] at hm
    rcases List.mem_append.mp hm with hm | hm
    · first
      | exact (encodeBytes_chars p.1 h.1 _ hm).1 rfl
      | exact (encodeBytes_chars p.1 h.1 _ hm).2.2 rfl
    · rcases List.mem_cons.mp hm with hm | hm
      · exact absurd hm (by decide)
      · first
        | exact (encodeBytes_chars p.2 h.2 _ hm).1 rfl
        | exact (encodeBytes_chars p.2 h.2 _ hm).2.2 rfl

theorem pairChars_inj (p₁ p₂ : List Nat × List Nat)
    (h₁ : ValidBytes p₁.1 ∧ ValidBytes p₁.2) (h₂ : ValidBytes p₂.1 ∧ ValidBytes p₂.2)
    (h : pairChars p₁ = pairChars p₂) : p₁ = p₂ := by
  rw [pairChars, pairChars] at h
  have hn₁ : '=' ∉ encodeBytes p₁.1 := fun hm => (encodeBytes_chars p₁.1 h₁.1 _ hm).2.1 rfl
  have hn₂ : '=' ∉ encodeBytes p₂.1 := fun hm => (encodeBytes_chars p₂.1 h₂.1 _ hm).2.1 rfl
  obtain ⟨hk, hv⟩ := append_cons_inj '=' _ _ hn₁ hn₂ _ _ h
  have hkEq := encodeBytes_inj h₁.1 h₂.1 hk
  have hvEq := encodeBytes_inj h₁.2 h₂.2 hv
  exact Prod.ext hkEq hvEq

theorem eq_ne_mem_pair (p : List Nat × List Nat) : '=' ∈ pairChars p := by
  rw [pairChars]
  exact List.mem_append.mpr (Or.inr (by simp))

theorem queryChars_inj : ∀ q₁ q₂ : Query, ValidQuery q₁ → ValidQuery q₂ →
    queryChars q₁ = queryChars q₂ → q₁ = q₂ := by
  intro q₁
  induction q₁ with
  | nil =>
    intro q₂ _ h₂ h
    cases q₂ with
    | nil => rfl
    | cons r rs =>
      exfalso
      have hmem : '=' ∈ pairChars r ++ queryRest rs :=
        List.mem_append.mpr (Or.inl (eq_ne_mem_pair r))
      rw [queryChars, queryChars] at h
      rw [← h] at hmem
      simp at hmem
  | cons p ps ih =>
    intro q₂ h₁ h₂ h
    cases q₂ with
    | nil =>
      exfalso
      have hmem : '=' ∈ pairChars p ++ queryRest ps :=
        List.mem_append.mpr (Or.inl (eq_ne_mem_pair p))
      rw [queryChars, queryChars] at h
      rw [h] at hmem
      simp at hmem
    | cons r rs =>
      rw [queryChars, queryChars] at h
      have hvp : ValidBytes p.1 ∧ ValidBytes p.2 := h₁ p (by simp)
      have hvr : ValidBytes r.1 ∧ ValidBytes r.2 := h₂ r (by simp)
      have hfp : '&' ∉ pairChars p := (pairChars_sep_free p hvp).1
      have hfr : '&' ∉ pairChars r := (pairChars_sep_free r hvr).1
      cases ps with
      | nil =>
        cases rs with
        | nil =>
          simp only [queryRest, List.append_nil] at h
          rw [pairChars_inj p r hvp hvr h]
        | cons r' rs' =>
          exfalso
          simp only [queryRest, List.append_nil] at h
          have hmem : '&' ∈ pairChars r ++ '&' :: (pairChars r' ++ queryRest rs') := by
            simp
          rw [← h] at hmem
          exact hfp hmem
      | cons p' ps' =>
        cases rs with
        | nil =>
          exfalso
          simp only [queryRest, List.append_nil] at h
          have hmem : '&' ∈ pairChars p ++ '&' :: (pairChars p' ++ queryRest ps') := by
            simp
          rw [h] at hmem
          exact hfr hmem
        | cons r' rs' =>
          simp only [queryRest] at h
          obtain ⟨hpr, hrest⟩ := append_cons_inj '&' _ _ hfp hfr _ _ h
          have hpEq := pairChars_inj p r hvp hvr hpr
          have hq : queryChars (p' :: ps') = queryChars (r' :: rs') := by
            rw [queryChars, queryChars]; exact hrest
          have hps : ValidQuery (p' :: ps') := fun x hx => h₁ x (by simp at hx ⊢; tauto)
          have hrs : ValidQuery (r' :: rs') := fun x hx => h₂ x (by simp at hx ⊢; tauto)
          have hTail := ih (r' :: rs') hps hrs hq
          rw [hpEq, hTail]

theorem allowed_no_colon : ∀ r ∈ allowedResources, ':' ∉ r.data := by decide

theorem isSafeResource_mem (r : String) (h : isSafeResource r = true) : r ∈ allowedResources := by
  simpa [isSafeResource] using h

theorem cacheKey_data (r : String) (q : Query) :
    (cacheKey r q).data = "traffic:".data ++ (r.data ++ (':' :: queryChars q)) := by
  have hcolon : (":" : String).data = [':'] := rfl
  simp [cacheKey, String.data_append, serializeQuery, hcolon]

theorem cacheKey_inj (r₁ r₂ : String) (q₁ q₂ : Query) (hr₁ : isSafeResource r₁ = true)
    (hr₂ : isSafeResource r₂ = true) (hq₁ : ValidQuery q₁) (hq₂ : ValidQuery q₂) :
    cacheKey r₁ q₁ = cacheKey r₂ q₂ ↔ (r₁ = r₂ ∧ q₁ = q₂) := by
  constructor
  · intro h
    have hd := congrArg String.data h
    rw [cacheKey_data, cacheKey_data] at hd
    have hd₂ := List.append_cancel_left hd
    have hc₁ : ':' ∉ r₁.data := allowed_no_colon r₁ (isSafeResource_mem r₁ hr₁)
    have hc₂ : ':' ∉ r₂.data := allowed_no_colon r₂ (isSafeResource_mem r₂ hr₂)
    obtain ⟨hr, hq⟩ := append_cons_inj ':' _ _ hc₁ hc₂ _ _ hd₂
    exact ⟨String.ext hr, queryChars_inj q₁ q₂ hq₁ hq₂ hq⟩
  · rintro ⟨h₁, h₂⟩
    rw [h₁, h₂]

/-! Helper lemmas about the request handler's paths. -/

theorem handle_invalid (ttl : Nat) (st : CacheState) (now : Nat) (r : String) (q : Query)
    (ev : FetchEvent) (hr : isSafeResource r = false) :
    handle ttl st now r q ev =
      ⟨400, none, .obj [("error", .str "Unsupported resource")], st, 0, false⟩ := by
  unfold handle
  simp [hr]

theorem handle_hit (ttl : Nat) (st : CacheState) (now : Nat) (r : String) (q : Query)
    (ev : FetchEvent) (v : Json) (hr : isSafeResource r = true)
    (hcg : cacheGet st now (cacheKey r q) = some v) (htr : jsTruthy v = true) :
    handle ttl st now r q ev = ⟨200, some "HIT", v, st, 0, false⟩ := by
  unfold handle
  simp [hr, hcg, htr]

theorem handle_eq_miss (ttl : Nat) (st : CacheState) (now : Nat) (r : String) (q : Query)
    (ev : FetchEvent) (hr : isSafeResource r = true)
    (hm : optTruthy (cacheGet st now (cacheKey r q)) = false) :
    handle ttl st now r q ev = handleMiss ttl st now (cacheKey r q) ev := by
  unfold handle
  cases hcg : cacheGet st now (cacheKey r q) with
  | none => simp [hr, hcg]
  | some v =>
    rw [hcg] at hm
    simp only [optTruthy] at hm
    simp [hr, hcg, hm]

theorem handleMiss_ok (ttl : Nat) (st : CacheState) (now : Nat) (key : String)
    (ev : FetchEvent) (s : Nat) (v : Json) (cb : Bool)
    (hj : runJob ev = (.ok s v, cb)) :
    handleMiss ttl st now key ev =
      ⟨200, some "MISS", v,
       (key ++ ":stale", (v, now + ttl * 10)) :: (key, (v, now + ttl)) :: st, 1, cb⟩ := by
  unfold handleMiss
  rw [hj]
  rfl

theorem handleMiss_err_stale (ttl : Nat) (st : CacheState) (now : Nat) (key : String)
    (ev : FetchEvent) (s : Nat) (txt : String) (cb : Bool) (sv : Json)
    (hj : runJob ev = (.err s txt, cb))
    (hst : cacheGet st now (key ++ ":stale") = some sv) (htr : jsTruthy sv = true) :
    handleMiss ttl st now key ev = ⟨200, some "STALE", staleBody sv, st, 1, cb⟩ := by
  unfold handleMiss
  rw [hj]
  simp [hst, htr]

theorem handleMiss_err_nostale (ttl : Nat) (st : CacheState) (now : Nat) (key : String)
    (ev : FetchEvent) (s : Nat) (txt : String) (cb : Bool)
    (hj : runJob ev = (.err s txt, cb))
    (hst : optTruthy (cacheGet st now (key ++ ":stale")) = false) :
    handleMiss ttl st now key ev =
      ⟨if s = 0 then 502 else s, none,
       .obj [("error", .str "Upstream error"), ("detail", .str txt)], st, 1, cb⟩ := by
  unfold handleMiss
  rw [hj]
  cases hcg : cacheGet st now (key ++ ":stale") with
  | none => simp [hcg]
  | some sv =>
    rw [hcg] at hst
    simp only [optTruthy] at hst
    simp [hcg, hst]

theorem handleMiss_thrown (ttl : Nat) (st : CacheState) (now : Nat) (key : String)
    (ev : FetchEvent) (ab : Bool) (cb : Bool)
    (hj : runJob ev = (.thrown ab, cb)) :
    handleMiss ttl st now key ev =
      ⟨504, none, .obj [("error", .str (if ab then "Upstream timeout" else "Proxy error"))],
       st, 1, cb⟩ := by
  unfold handleMiss
  rw [hj]

theorem key_ne_stale (k : String) : (k == k ++ ":stale") = false := by
  refine beq_eq_false_iff_ne.mpr fun h => ?_
  have hl := congrArg String.length h
  rw [String.length_append] at hl
  have h6 : (":stale" : String).length = 6 := rfl
  omega

theorem handleMiss_calls (ttl : Nat) (st : CacheState) (now : Nat) (key : String)
    (ev : FetchEvent) : (handleMiss ttl st now key ev).upstreamCalls = 1 := by
  unfold handleMiss
  rcases hj : runJob ev with ⟨o, c⟩
  cases o with
  | ok s v => rfl
  | thrown ab => rfl
  | err s txt =>
    cases hst : cacheGet st now (key ++ ":stale") with
    | none => simp [hst]
    | some sv => by_cases htr : jsTruthy sv = true <;> simp [hst, htr]

theorem handle_calls_le (ttl : Nat) (st : CacheState) (now : Nat) (r : String) (q : Query)
    (ev : FetchEvent) : (handle ttl st now r q ev).upstreamCalls ≤ 1 := by
  unfold handle
  by_cases hr : isSafeResource r = true
  · cases hcg : cacheGet st now (cacheKey r q) with
    | none => simp [hr, hcg, handleMiss_calls]
    | some v =>
      by_cases htr : jsTruthy v = true <;> simp [hr, hcg, htr, handleMiss_calls]
  · simp [hr]

/-- C2: for every resource name not in the fixed whitelist, the handler
responds HTTP 400 with body error "Unsupported resource", leaves the cache
untouched and makes no outbound upstream call. -/
theorem claimC2 (ttl : Nat) (st : CacheState) (now : Nat) (r : String) (q : Query)
    (ev : FetchEvent) (hr : isSafeResource r = false) :
    handle ttl st now r q ev =
      ⟨400, none, .obj [("error", .str "Unsupported resource")], st, 0, false⟩ :=
  handle_invalid ttl st now r q ev hr

/-- Witness for C2: the resource "cameras" is not whitelisted, so the
response is 400 with no upstream call. -/
theorem claimC2_witness :
    isSafeResource "cameras" = false ∧
    handle 30 [] 0 "cameras" [] .timeout =
      ⟨400, none, .obj [("error", .str "Unsupported resource")], [], 0, false⟩ :=
  ⟨by decide, claimC2 30 [] 0 "cameras" [] .timeout (by decide)⟩

/-- C5: for every successful fetch (a job outcome of the Success kind,
which only a 2xx response can produce), the normalized body is written to
both the fresh tier (expiry now + ttl) and the stale tier (expiry
now + ttl * 10, i.e. the stale TTL is exactly ten times the fresh TTL),
and the response is 200 with the X-Cache MISS marker carrying that body. -/
theorem claimC5 (ttl : Nat) (st : CacheState) (now : Nat) (r : String) (q : Query)
    (ev : FetchEvent) (s : Nat) (v : Json) (cb : Bool)
    (hr : isSafeResource r = true)
    (hm : optTruthy (cacheGet st now (cacheKey r q)) = false)
    (hj : runJob ev = (.ok s v, cb)) :
    handle ttl st now r q ev =
      ⟨200, some "MISS", v,
       (cacheKey r q ++ ":stale", (v, now + ttl * 10)) ::
       (cacheKey r q, (v, now + ttl)) :: st, 1, cb⟩ := by
  rw [handle_eq_miss ttl st now r q ev hr hm]
  exact handleMiss_ok ttl st now (cacheKey r q) ev s v cb hj

/-- Witness for C5: a 2xx JSON response for findRegionsAll on an empty
cache writes both tiers and responds 200 MISS. -/
theorem claimC5_witness :
    runJob (.response ⟨200, "application/json", "\x7b\x7d", some (.obj [])⟩) =
      (.ok 200 (.obj []), true) ∧
    handle 30 [] 0 "findRegionsAll" [] (.response ⟨200, "application/json", "\x7b\x7d", some (.obj [])⟩) =
      ⟨200, some "MISS", .obj [],
       (cacheKey "findRegionsAll" [] ++ ":stale", (.obj [], 300)) ::
       (cacheKey "findRegionsAll" [], (.obj [], 30)) :: [], 1, true⟩ :=
  ⟨rfl, claimC5 30 [] 0 "findRegionsAll" [] _ 200 (.obj []) true (by decide) rfl rfl⟩

/-- C1 (amended): only an UpstreamError — a fetch that resolved with a
non-2xx status — makes the orchestrator consult the stale tier: a truthy
stale entry is served as 200 with the stale body plus warning and the
STALE marker, and without one the response is the upstream status (502 if
that status is 0) with an error body. A Timeout or TransportError rejects
the job, bypasses the stale lookup entirely, and is answered 504 by the
catch block. -/
theorem claimC1 (ttl : Nat) (st : CacheState) (now : Nat) (r : String) (q : Query)
    (hr : isSafeResource r = true)
    (hm : optTruthy (cacheGet st now (cacheKey r q)) = false) :
    (∀ resp : UpstreamResponse, respOk resp.status = false →
      (∀ sv, cacheGet st now (cacheKey r q ++ ":stale") = some sv → jsTruthy sv = true →
        handle ttl st now r q (.response resp) =
          ⟨200, some "STALE", staleBody sv, st, 1, true⟩) ∧
      (optTruthy (cacheGet st now (cacheKey r q ++ ":stale")) = false →
        handle ttl st now r q (.response resp) =
          ⟨if resp.status = 0 then 502 else resp.status, none,
           .obj [("error", .str "Upstream error"), ("detail", .str resp.bodyText)],
           st, 1, true⟩)) ∧
    handle ttl st now r q .timeout =
      ⟨504, none, .obj [("error", .str "Upstream timeout")], st, 1, false⟩ ∧
    handle ttl st now r q .transportFail =
      ⟨504, none, .obj [("error", .str "Proxy error")], st, 1, false⟩ := by
  refine ⟨fun resp hnok => ?_, ?_, ?_⟩
  · have hj : runJob (.response resp) = (.err resp.status resp.bodyText, true) := by
      unfold runJob
      simp [hnok]
    constructor
    · intro sv hst htr
      rw [handle_eq_miss ttl st now r q _ hr hm]
      exact handleMiss_err_stale ttl st now (cacheKey r q) _ _ _ _ sv hj hst htr
    · intro hnost
      rw [handle_eq_miss ttl st now r q _ hr hm]
      exact handleMiss_err_nostale ttl st now (cacheKey r q) _ _ _ _ hj hnost
  · rw [handle_eq_miss ttl st now r q _ hr hm]
    exact handleMiss_thrown ttl st now (cacheKey r q) _ true false rfl
  · rw [handle_eq_miss ttl st now r q _ hr hm]
    exact handleMiss_thrown ttl st now (cacheKey r q) _ false false rfl

/-- Witness for C1 (amended), on a cache holding only a truthy stale entry
for findRegionsAll: a 500 upstream response is answered 200 STALE with the
stale body plus warning, and a timeout is answered 504. -/
theorem claimC1_witness :
    isSafeResource "findRegionsAll" = true ∧
    handle 30 [("traffic:findRegionsAll::stale", (Json.obj [("foo", Json.num 1)], 100))] 0
        "findRegionsAll" [] (.response ⟨500, "", "boom", none⟩) =
      ⟨200, some "STALE", staleBody (Json.obj [("foo", Json.num 1)]),
       [("traffic:findRegionsAll::stale", (Json.obj [("foo", Json.num 1)], 100))], 1, true⟩ ∧
    handle 30 [("traffic:findRegionsAll::stale", (Json.obj [("foo", Json.num 1)], 100))] 0
        "findRegionsAll" [] .timeout =
      ⟨504, none, .obj [("error", .str "Upstream timeout")],
       [("traffic:findRegionsAll::stale", (Json.obj [("foo", Json.num 1)], 100))], 1, false⟩ :=
  ⟨by decide,
   ((claimC1 30 [("traffic:findRegionsAll::stale", (Json.obj [("foo", Json.num 1)], 100))] 0
      "findRegionsAll" [] (by decide) rfl).1 ⟨500, "", "boom", none⟩ (by decide)).1
     (Json.obj [("foo", Json.num 1)]) rfl rfl,
   (claimC1 30 [("traffic:findRegionsAll::stale", (Json.obj [("foo", Json.num 1)], 100))] 0
      "findRegionsAll" [] (by decide) rfl).2.1⟩

/-- C1 counterexample: the claim says every FetchFailure, including
Timeout, looks up the stale tier and serves a found stale entry as 200;
but with a truthy stale entry present a Timeout is answered 504 with an
error body and no stale marker. -/
theorem claimC1_counterexample :
    cacheGet [("traffic:findRegionsAll::stale", (Json.obj [("foo", Json.num 1)], 100))] 0
        (cacheKey "findRegionsAll" [] ++ ":stale") =
      some (Json.obj [("foo", Json.num 1)]) ∧
    (handle 30 [("traffic:findRegionsAll::stale", (Json.obj [("foo", Json.num 1)], 100))] 0
        "findRegionsAll" [] .timeout).status = 504 ∧
    (handle 30 [("traffic:findRegionsAll::stale", (Json.obj [("foo", Json.num 1)], 100))] 0
        "findRegionsAll" [] .timeout).xCache = none :=
  ⟨rfl, rfl, rfl⟩

/-- C3 (amended): a truthy fresh-cache hit never triggers an upstream call
and returns the cached value; and repeating an identical request after a
MISS that fetched a truthy value, before the fresh TTL elapses, yields a
HIT with exactly that value and no upstream call. (Falsy fetched values —
null, false, 0 — are cached but fail the JavaScript truthiness test at
line 54, so they are refetched rather than served as hits.) -/
theorem claimC3 :
    (∀ ttl st now r q ev v,
      isSafeResource r = true →
      cacheGet st now (cacheKey r q) = some v → jsTruthy v = true →
      handle ttl st now r q ev = ⟨200, some "HIT", v, st, 0, false⟩) ∧
    (∀ ttl st t₁ t₂ r q ev₁ ev₂ s v cb,
      isSafeResource r = true →
      optTruthy (cacheGet st t₁ (cacheKey r q)) = false →
      runJob ev₁ = (.ok s v, cb) → jsTruthy v = true →
      t₂ < t₁ + ttl →
      handle ttl (handle ttl st t₁ r q ev₁).cache t₂ r q ev₂ =
        ⟨200, some "HIT", v, (handle ttl st t₁ r q ev₁).cache, 0, false⟩) := by
  constructor
  · exact fun ttl st now r q ev v hr hcg htr => handle_hit ttl st now r q ev v hr hcg htr
  · intro ttl st t₁ t₂ r q ev₁ ev₂ s v cb hr hm hj htr hlt
    have h₁ : handle ttl st t₁ r q ev₁ =
        ⟨200, some "MISS", v,
         (cacheKey r q ++ ":stale", (v, t₁ + ttl * 10)) ::
         (cacheKey r q, (v, t₁ + ttl)) :: st, 1, cb⟩ :=
      (handle_eq_miss ttl st t₁ r q ev₁ hr hm).trans
        (handleMiss_ok ttl st t₁ (cacheKey r q) ev₁ s v cb hj)
    rw [h₁]
    have hcg : cacheGet
        ((cacheKey r q ++ ":stale", (v, t₁ + ttl * 10)) ::
         (cacheKey r q, (v, t₁ + ttl)) :: st) t₂ (cacheKey r q) = some v := by
      unfold cacheGet
      simp [List.lookup, key_ne_stale (cacheKey r q), hlt]
    exact handle_hit ttl _ t₂ r q ev₂ v hr hcg htr

/-- Witness for C3: a fetched value of an object is served as a HIT with
no upstream call when the same request repeats one time unit later. -/
theorem claimC3_witness :
    runJob (.response ⟨200, "application/json", "\x7b\x7d", some (.obj [])⟩) =
      (.ok 200 (.obj []), true) ∧
    handle 30 (handle 30 [] 0 "findRegionsAll" []
        (.response ⟨200, "application/json", "\x7b\x7d", some (.obj [])⟩)).cache 1
        "findRegionsAll" [] .timeout =
      ⟨200, some "HIT", .obj [],
       (handle 30 [] 0 "findRegionsAll" []
         (.response ⟨200, "application/json", "\x7b\x7d", some (.obj [])⟩)).cache, 0, false⟩ :=
  ⟨rfl,
   claimC3.2 30 [] 0 1 "findRegionsAll" [] _ .timeout 200 (.obj []) true
     (by decide) rfl rfl rfl (by decide)⟩

/-- C3 counterexample: the claim promises a HIT for every JSON-compatible
fetched value, but after fetching the JSON number 0 the repeated identical
request is another MISS that calls upstream again. -/
theorem claimC3_counterexample :
    runJob (.response ⟨200, "application/json", "0", some (.num 0)⟩) =
      (.ok 200 (.num 0), true) ∧
    (handle 30 (handle 30 [] 0 "findRegionsAll" []
        (.response ⟨200, "application/json", "0", some (.num 0)⟩)).cache 1 "findRegionsAll" []
        (.response ⟨200, "application/json", "0", some (.num 0)⟩)).xCache = some "MISS" ∧
    (handle 30 (handle 30 [] 0 "findRegionsAll" []
        (.response ⟨200, "application/json", "0", some (.num 0)⟩)).cache 1 "findRegionsAll" []
        (.response ⟨200, "application/json", "0", some (.num 0)⟩)).upstreamCalls = 1 :=
  ⟨rfl, rfl, rfl⟩

/-- C4 (amended): for whitelisted resources and byte-valid queries, two
requests derive the same CacheKey exactly when they have identical
resource and identical query parameter lists in the same order; any
difference in resource or parameters — including a different order of the
same parameter set — derives a distinct CacheKey. -/
theorem claimC4 (r₁ r₂ : String) (q₁ q₂ : Query)
    (hr₁ : isSafeResource r₁ = true) (hr₂ : isSafeResource r₂ = true)
    (hq₁ : ValidQuery q₁) (hq₂ : ValidQuery q₂) :
    cacheKey r₁ q₁ = cacheKey r₂ q₂ ↔ (r₁ = r₂ ∧ q₁ = q₂) :=
  cacheKey_inj r₁ r₂ q₁ q₂ hr₁ hr₂ hq₁ hq₂

/-- Witness for C4 at a concrete resource and query (the query a=1, in
bytes). -/
theorem claimC4_witness :
    isSafeResource "findRegionsAll" = true ∧
    ValidQuery [([97], [49])] ∧
    (cacheKey "findRegionsAll" [([97], [49])] = cacheKey "findRegionsAll" [([97], [49])] ↔
      ("findRegionsAll" = "findRegionsAll" ∧
        ([([97], [49])] : Query) = [([97], [49])])) :=
  ⟨by decide, by unfold ValidQuery ValidBytes; decide,
   claimC4 "findRegionsAll" "findRegionsAll" [([97], [49])] [([97], [49])]
     (by decide) (by decide) (by unfold ValidQuery ValidBytes; decide)
     (by unfold ValidQuery ValidBytes; decide)⟩

/-- C4 counterexample: the identical parameter set a=1, b=2 supplied in
the two possible orders derives two distinct CacheKeys, because
URLSearchParams serializes parameters in their given order; the claim
says any order must collide. -/
theorem claimC4_counterexample :
    cacheKey "findRegionsAll" [([97], [49]), ([98], [50])] ≠
      cacheKey "findRegionsAll" [([98], [50]), ([97], [49])] := by
  decide

/-- C6: the claim (and the spec) say the timeout timer is cleared on every
exit path once the fetch settles; in the code cancel() sits only after a
successful `await fetch`, so on the two rejection paths — timeout abort
and transport failure — clearTimeout is never invoked, while both
resolution paths (any HTTP response, 2xx or not) do clear it. This
contradicts the claim: the code is the slip. -/
theorem claimC6 :
    runJob .transportFail = (.thrown false, false) ∧
    runJob .timeout = (.thrown true, false) ∧
    (∀ r : UpstreamResponse, (runJob (.response r)).2 = true) := by
  refine ⟨rfl, rfl, fun r => ?_⟩
  unfold runJob
  by_cases h₁ : respOk r.status = true
  · by_cases h₂ : jsonCT r.contentType = true
    · cases hb : r.bodyJson <;> simp [h₁, h₂, hb]
    · simp [h₁, h₂]
  · simp [h₁]

/-- C7: on a 2xx response whose declared content type does not indicate
JSON the body is treated as opaque text — the job succeeds with the object
raw: text, and on a cache miss that object is both written to the two
cache tiers and returned to the client; when the content type does
indicate JSON the body is parsed, and the job succeeds with the
(string-normalizing) normalization of the parse result. -/
theorem claimC7 (resp : UpstreamResponse) (hok : respOk resp.status = true) :
    (jsonCT resp.contentType = false →
      runJob (.response resp) = (.ok resp.status (.obj [("raw", .str resp.bodyText)]), true) ∧
      (∀ ttl st now r q, isSafeResource r = true →
        optTruthy (cacheGet st now (cacheKey r q)) = false →
        handle ttl st now r q (.response resp) =
          ⟨200, some "MISS", .obj [("raw", .str resp.bodyText)],
           (cacheKey r q ++ ":stale", (.obj [("raw", .str resp.bodyText)], now + ttl * 10)) ::
           (cacheKey r q, (.obj [("raw", .str resp.bodyText)], now + ttl)) :: st, 1, true⟩)) ∧
    (jsonCT resp.contentType = true → ∀ v, resp.bodyJson = some v →
      runJob (.response resp) = (.ok resp.status (jsNormalize v), true)) := by
  constructor
  · intro hct
    have hj : runJob (.response resp) =
        (.ok resp.status (.obj [("raw", .str resp.bodyText)]), true) := by
      unfold runJob
      simp [hok, hct, jsNormalize]
    refine ⟨hj, fun ttl st now r q hr hm => ?_⟩
    rw [handle_eq_miss ttl st now r q _ hr hm]
    exact handleMiss_ok ttl st now (cacheKey r q) _ resp.status _ true hj
  · intro hct v hv
    unfold runJob
    simp [hok, hct, hv]

/-- Witness for C7: a 200 text/plain response with body "hello" is
normalized to the object raw: "hello", cached in both tiers and returned,
and a 200 JSON response parses its body. -/
theorem claimC7_witness :
    respOk 200 = true ∧
    jsonCT "text/plain" = false ∧
    runJob (.response ⟨200, "text/plain", "hello", none⟩) =
      (.ok 200 (.obj [("raw", .str "hello")]), true) ∧
    handle 30 [] 0 "findRegionsAll" [] (.response ⟨200, "text/plain", "hello", none⟩) =
      ⟨200, some "MISS", .obj [("raw", .str "hello")],
       (cacheKey "findRegionsAll" [] ++ ":stale", (.obj [("raw", .str "hello")], 300)) ::
       (cacheKey "findRegionsAll" [], (.obj [("raw", .str "hello")], 30)) :: [], 1, true⟩ ∧
    runJob (.response ⟨200, "application/json", "3", some (.num 3)⟩) =
      (.ok 200 (jsNormalize (.num 3)), true) :=
  ⟨by decide, by decide,
   ((claimC7 ⟨200, "text/plain", "hello", none⟩ (by decide)).1 (by decide)).1,
   ((claimC7 ⟨200, "text/plain", "hello", none⟩ (by decide)).1 (by decide)).2
     30 [] 0 "findRegionsAll" [] (by decide) rfl,
   (claimC7 ⟨200, "application/json", "3", some (.num 3)⟩ (by decide)).2 (by decide) (.num 3) rfl⟩

/-- C8: a fetch that resolves with a non-2xx status yields the
UpstreamError outcome carrying the original status code and the body read
as text (with the timer cleared), and no request handler invocation ever
makes more than one outbound upstream call, so nothing in the pipeline
retries. -/
theorem claimC8 :
    (∀ resp : UpstreamResponse, respOk resp.status = false →
      runJob (.response resp) = (.err resp.status resp.bodyText, true)) ∧
    (∀ ttl st now r q ev, (handle ttl st now r q ev).upstreamCalls ≤ 1) := by
  constructor
  · intro resp hnok
    unfold runJob
    simp [hnok]
  · exact fun ttl st now r q ev => handle_calls_le ttl st now r q ev

/-- Witness for C8: a 503 response becomes an UpstreamError with status
503 and the body text, and a concrete miss makes exactly one call. -/
theorem claimC8_witness :
    respOk 503 = false ∧
    runJob (.response ⟨503, "text/html", "overloaded", none⟩) =
      (.err 503 "overloaded", true) ∧
    (handle 30 [] 0 "findRegionsAll" [] .timeout).upstreamCalls ≤ 1 :=
  ⟨by decide,
   claimC8.1 ⟨503, "text/html", "overloaded", none⟩ (by decide),
   claimC8.2 30 [] 0 "findRegionsAll" [] .timeout⟩

theorem objUpsert_not_mem (fs : List (String × Json)) (k : String) (v : Json)
    (h : k ∉ fs.map Prod.fst) : objUpsert fs k v = fs ++ [(k, v)] := by
  induction fs with
  | nil => rfl
  | cons p rest ih =>
    obtain ⟨k₁, v₁⟩ := p
    simp only [List.map_cons, List.mem_cons, not_or] at h
    rw [objUpsert, if_neg (fun he => h.1 he.symm), ih h.2]
    rfl

theorem objUpsert_lookup_self (fs : List (String × Json)) (k : String) (v : Json) :
    (objUpsert fs k v).lookup k = some v := by
  induction fs with
  | nil => simp [objUpsert, List.lookup]
  | cons p rest ih =>
    obtain ⟨k₁, v₁⟩ := p
    rw [objUpsert]
    by_cases he : k₁ = k
    · simp [he, List.lookup]
    · have hb : (k == k₁) = false := beq_eq_false_iff_ne.mpr fun hk => he hk.symm
      simp [he, List.lookup, hb, ih]

theorem objUpsert_lookup_other (fs : List (String × Json)) (k : String) (v : Json)
    (k' : String) (h : k' ≠ k) : (objUpsert fs k v).lookup k' = fs.lookup k' := by
  have hb : (k' == k) = false := beq_eq_false_iff_ne.mpr h
  induction fs with
  | nil => simp [objUpsert, List.lookup, hb]
  | cons p rest ih =>
    obtain ⟨k₁, v₁⟩ := p
    rw [objUpsert]
    by_cases he : k₁ = k
    · subst he
      simp [List.lookup, hb]
    · by_cases he' : (k' == k₁) = true
      · simp [he, List.lookup, he']
      · simp at he'
        have hb' : (k' == k₁) = false := beq_eq_false_iff_ne.mpr he'
        simp [he, List.lookup, hb', ih]

/-- C10: serving a stale value spreads it and adds the meta warning: an
object without a meta field keeps all its fields unchanged with the
warning appended; an object with a meta field has exactly that field
replaced by the warning object (other keys unaffected); and any stale
value that is not an object (array, string, number, boolean, null) is not
returned in its original shape, because the spread result is always an
object. -/
theorem claimC10 :
    (∀ fs : List (String × Json), "meta" ∉ fs.map Prod.fst →
      staleBody (.obj fs) = .obj (fs ++ [("meta", warnMeta)])) ∧
    (∀ fs : List (String × Json),
      staleBody (.obj fs) = .obj (objUpsert fs "meta" warnMeta) ∧
      (objUpsert fs "meta" warnMeta).lookup "meta" = some warnMeta ∧
      ∀ k, k ≠ "meta" → (objUpsert fs "meta" warnMeta).lookup k = fs.lookup k) ∧
    (∀ v : Json, isObj v = false → staleBody v ≠ v) := by
  refine ⟨fun fs h => ?_, fun fs => ⟨rfl, objUpsert_lookup_self fs _ _,
    fun k hk => objUpsert_lookup_other fs _ _ k hk⟩, fun v hv => ?_⟩
  · rw [staleBody]
    show Json.obj (objUpsert fs "meta" warnMeta) = _
    rw [objUpsert_not_mem fs _ _ h]
  · cases v with
    | obj fs => simp [isObj] at hv
    | null => exact fun h => Json.noConfusion h
    | bool b => exact fun h => Json.noConfusion h
    | num n => exact fun h => Json.noConfusion h
    | str s => exact fun h => Json.noConfusion h
    | arr xs => exact fun h => Json.noConfusion h

/-- Witness for C10 at the object with single field foo: the response body
keeps foo and appends the warning, and lookups behave as stated. -/
theorem claimC10_witness :
    ("meta" ∉ ([("foo", Json.num 1)].map Prod.fst)) ∧
    staleBody (.obj [("foo", Json.num 1)]) =
      .obj [("foo", Json.num 1), ("meta", warnMeta)] ∧
    (objUpsert [("meta", Json.num 7)] "meta" warnMeta).lookup "meta" = some warnMeta :=
  ⟨by decide,
   claimC10.1 [("foo", Json.num 1)] (by decide),
   (claimC10.2.1 [("meta", Json.num 7)]).2.1⟩

namespace Limiter

theorem tick_sum (l : List Nat) :
    ((l.filter (fun f => f != 0)).map (fun f => f - 1)).sum +
      ((l.filter (fun f => f != 0)).map (fun f => f - 1)).length = l.sum := by
  induction l with
  | nil => rfl
  | cons x xs ih =>
    cases x with
    | zero => simpa using ih
    | succ n =>
      simp only [List.filter_cons, List.sum_cons]
      simp only [show ((n + 1 : Nat) != 0) = true by simp, if_true]
      simp only [List.map_cons, List.sum_cons, List.length_cons]
      omega

theorem count_split (l : List Nat) :
    (l.filter (fun f => f == 0)).length + (l.filter (fun f => f != 0)).length = l.length := by
  induction l with
  | nil => rfl
  | cons x xs ih =>
    cases x with
    | zero => simp only [List.filter_cons]; simp; omega
    | succ n => simp only [List.filter_cons]; simp; omega

theorem tick_bound (cap : Nat) (s : LimState) (h : s.running.length ≤ cap) :
    (tickStep cap s).running.length ≤ cap := by
  unfold tickStep
  simp only [List.length_append, List.length_take, List.length_map]
  have h₁ : (s.running.filter (fun f => f != 0)).length ≤ s.running.length :=
    List.length_filter_le _ _
  omega

theorem runN_bound (cap : Nat) : ∀ (k : Nat) (s : LimState),
    s.running.length ≤ cap → (runN cap k s).running.length ≤ cap := by
  intro k
  induction k with
  | zero => exact fun s h => h
  | succ k ih => exact fun s h => ih (tickStep cap s) (tick_bound cap s h)

theorem tick_potential (cap : Nat) (s : LimState) (hcap : 1 ≤ cap)
    (h : ¬(s.queued = [] ∧ s.running = [])) :
    potential (tickStep cap s) < potential s := by
  obtain ⟨Q, R, d⟩ := s
  unfold tickStep potential
  simp only [List.sum_append, List.length_append]
  have h₁ := tick_sum R
  set r' := (R.filter (fun f => f != 0)).map (fun f => f - 1) with hr'
  set space := cap - r'.length with hspace
  have h₂ : (Q.take space).sum + (Q.drop space).sum = Q.sum :=
    List.sum_take_add_sum_drop Q space
  have h₃ : (Q.take space).length + (Q.drop space).length = Q.length := by
    rw [← List.length_append, List.take_append_drop]
  have h₄ : (Q.drop space).length = Q.length - space := List.length_drop space Q
  have h₅ : r'.length ≤ R.length := by
    rw [hr', List.length_map]
    exact List.length_filter_le _ _
  by_cases hR : R = []
  · have hQ : Q ≠ [] := by
      intro hq
      exact h ⟨hq, hR⟩
    have hQl : 1 ≤ Q.length := List.length_pos.mpr hQ
    have hr0 : r' = [] := by rw [hr', hR]; rfl
    have hl0 : r'.length = 0 := by rw [hr0]; rfl
    have hs0 : r'.sum = 0 := by rw [hr0]; rfl
    have hRs : R.sum = 0 := by rw [hR]; rfl
    have hRl : R.length = 0 := by rw [hR]; rfl
    omega
  · have hRl : 1 ≤ R.length := List.length_pos.mpr hR
    omega

theorem tick_fixed (cap : Nat) (s : LimState) (hq : s.queued = []) (hr : s.running = []) :
    tickStep cap s = s := by
  obtain ⟨Q, R, d⟩ := s
  simp only at hq hr
  subst hq
  subst hr
  simp [tickStep]

theorem runN_term (cap : Nat) (hcap : 1 ≤ cap) : ∀ (k : Nat) (s : LimState),
    potential s ≤ k → (runN cap k s).queued = [] ∧ (runN cap k s).running = [] := by
  intro k
  induction k with
  | zero =>
    intro s hp
    obtain ⟨Q, R, d⟩ := s
    unfold potential at hp
    simp only at hp
    have hq : Q.length = 0 := by omega
    have hr : R.length = 0 := by omega
    exact ⟨List.length_eq_zero.mp hq, List.length_eq_zero.mp hr⟩
  | succ k ih =>
    intro s hp
    by_cases hfin : s.queued = [] ∧ s.running = []
    · have hfix := tick_fixed cap s hfin.1 hfin.2
      have hp0 : potential s = 0 := by
        obtain ⟨Q, R, d⟩ := s
        simp only at hfin
        unfold potential
        rw [hfin.1, hfin.2]
        rfl
      rw [runN, hfix]
      exact ih s (by omega)
    · have hdec := tick_potential cap s hcap hfin
      rw [runN]
      exact ih (tickStep cap s) (by omega)

theorem tick_conserve (cap : Nat) (s : LimState) :
    (tickStep cap s).done + (tickStep cap s).queued.length +
      (tickStep cap s).running.length =
    s.done + s.queued.length + s.running.length := by
  obtain ⟨Q, R, d⟩ := s
  unfold tickStep
  simp only [List.length_append, List.length_take, List.length_drop, List.length_map]
  have h₁ := count_split R
  have h₂ : (R.filter (fun f => f != 0)).length ≤ R.length := List.length_filter_le _ _
  omega

theorem runN_conserve (cap : Nat) : ∀ (k : Nat) (s : LimState),
    (runN cap k s).done + (runN cap k s).queued.length + (runN cap k s).running.length =
      s.done + s.queued.length + s.running.length := by
  intro k
  induction k with
  | zero => exact fun s => rfl
  | succ k ih =>
    intro s
    rw [runN]
    rw [ih (tickStep cap s)]
    exact tick_conserve cap s

end Limiter

/-- C9: in the limiter model (from spec section 4.3, since p-limit is an
external dependency), starting from any FIFO workload with nothing yet
running, at every scheduler round at most the configured capacity of
tasks is running simultaneously, and within `potential` rounds the queue
and the running set drain with every submitted task completed. -/
theorem claimC9 (cap : Nat) (fuels : List Nat) (hcap : 1 ≤ cap) :
    (∀ k, (Limiter.runN cap k ⟨fuels, [], 0⟩).running.length ≤ cap) ∧
    (Limiter.runN cap (Limiter.potential ⟨fuels, [], 0⟩) ⟨fuels, [], 0⟩).queued = [] ∧
    (Limiter.runN cap (Limiter.potential ⟨fuels, [], 0⟩) ⟨fuels, [], 0⟩).running = [] ∧
    (Limiter.runN cap (Limiter.potential ⟨fuels, [], 0⟩) ⟨fuels, [], 0⟩).done =
      fuels.length := by
  have hterm := Limiter.runN_term cap hcap (Limiter.potential ⟨fuels, [], 0⟩)
    ⟨fuels, [], 0⟩ (le_refl _)
  have hcons := Limiter.runN_conserve cap (Limiter.potential ⟨fuels, [], 0⟩) ⟨fuels, [], 0⟩
  refine ⟨fun k => Limiter.runN_bound cap k ⟨fuels, [], 0⟩ (by simp), hterm.1, hterm.2, ?_⟩
  rw [hterm.1, hterm.2] at hcons
  simpa using hcons

/-- Witness for C9 with capacity 1 and two queued tasks of fuels 0 and 2:
the bound holds at round 3 and the run drains with both tasks done. -/
theorem claimC9_witness :
    (1 : Nat) ≤ 1 ∧
    (Limiter.runN 1 3 ⟨[0, 2], [], 0⟩).running.length ≤ 1 ∧
    (Limiter.runN 1 (Limiter.potential ⟨[0, 2], [], 0⟩) ⟨[0, 2], [], 0⟩).done = 2 :=
  ⟨by decide, (claimC9 1 [0, 2] (by decide)).1 3, (claimC9 1 [0, 2] (by decide)).2.2.2⟩
